import Mathlib

/-!
Verification of the repository lock manager and the fake-tree test data
generator of the restic repository.

The repository snapshot provides `cmd/restic/lock_test.go` (the tests of the
lock manager) and `internal/restic/testing.go` (the fake data generator).
The lock manager implementation itself (`cmd/restic/lock.go` and
`internal/restic/lock.go`) is absent, so the lock-manager definitions below
are modelled from the specification (spec.md §3–§7); each such definition
says so in its doc comment.  The fake-tree generator `saveTree` is embedded
directly from `internal/restic/testing.go`.

Time is modelled as a discrete wall clock in milliseconds (`Nat`); backend
operations take zero model time, and sleeps/timers advance the clock.
-/

namespace Restic

/-- Modelled from the spec: §3 "Lock Record" — the on-store representation of
one client's claim (`internal/restic/lock.go` is missing from the snapshot).
Timestamps are milliseconds on a discrete wall clock. -/
structure LockRecord where
  time : Nat
  exclusive : Bool
  hostname : String
  username : String
  uid : Nat
  gid : Nat
  pid : Nat
deriving DecidableEq, Repr

/-- Modelled from the spec: §4.3 / §6 tunables — `stale_age`, default 30
minutes, in milliseconds. -/
def staleAge : Nat := 30 * 60 * 1000

/-- Modelled from the spec: the local environment a staleness decision sees:
current wall clock, local hostname, the local pid-liveness probe, and the
peer-liveness probe result for a record ("known-dead"). -/
structure Env where
  now : Nat
  localHostname : String
  pidAlive : Nat → Bool
  knownDead : LockRecord → Bool

/-- Modelled from the spec: §4.3 Staleness Oracle (`Lock.Stale` is missing
from the snapshot).  A record is stale iff (1) its timestamp is older than
`stale_age` and its owner is known-dead per the peer-liveness probe, or
(2) its hostname equals the local hostname and its pid does not name a live
local process, or (3) its timestamp is older than `stale_age` and the local
hostname equals the record's hostname. -/
def stale (env : Env) (r : LockRecord) : Bool :=
  (decide (r.time + staleAge < env.now) && env.knownDead r) ||
  ((r.hostname == env.localHostname) && !env.pidAlive r.pid) ||
  (decide (r.time + staleAge < env.now) && (r.hostname == env.localHostname))

/-- Modelled from the spec: §3 "In-memory Lock Handle" with its derived
cancellation scope (§4.6).  The derived scope is cancelled when the caller
cancels the parent, when the handle is released, or when the Refresh Loop
enters Lost; the three booleans record those events. -/
structure Handle where
  record : LockRecord
  parentCancelled : Bool
  released : Bool
  lost : Bool
deriving DecidableEq, Repr

/-- Modelled from the spec: §4.6 Scope Binding — the derived scope's
"cancelled" query.  Cancelled iff the parent was cancelled, or the handle was
released (`unlock` / `unlock-all`), or the Refresh Loop entered Lost. -/
def Handle.scopeCancelled (h : Handle) : Bool :=
  h.parentCancelled || h.released || h.lost

/-- Modelled from the spec: §6 `unlock(handle)` — idempotent, never fails
fatally.  Sets the one-shot release flag (which cancels the derived scope);
a second call is a no-op.  The returned boolean is the success result. -/
def unlock (h : Handle) : Handle × Bool :=
  if h.released then (h, true) else ({ h with released := true }, true)

/-- Modelled from the spec: §4.6 — the caller cancelling the caller-supplied
parent scope, propagated to the derived scope. -/
def cancelParent (h : Handle) : Handle :=
  { h with parentCancelled := true }

/-- Modelled from the spec: §4.7 Process Registry — the process-wide set of
currently held lock handles. -/
structure ProcState where
  registry : List Handle
deriving DecidableEq, Repr

/-- Modelled from the spec: §6 `unlock_all(grace) → count` — releases every
handle in the registry, returns the count of released locks, the released
handles, and the emptied registry.  The grace argument does not affect the
release outcome. -/
def unlockAll (grace : Nat) (st : ProcState) : Nat × List Handle × ProcState :=
  (st.registry.length, st.registry.map (fun h => (unlock h).fst), ⟨[]⟩)

/-- Modelled from the spec: §4.4 step 1–2 — the records the scan keeps, i.e.
those not deemed stale. -/
def nonStaleLocks (env : Env) (records : List LockRecord) : List LockRecord :=
  records.filter (fun r => !stale env r)

/-- Modelled from the spec: §4.4 step 2 Conflict check — for exclusive mode,
conflict with any non-stale record; for shared mode, conflict only with
non-stale exclusive records.  Returns the first conflicting record. -/
def conflictingLock (env : Env) (exclusiveMode : Bool)
    (records : List LockRecord) : Option LockRecord :=
  (nonStaleLocks env records).find? (fun r => exclusiveMode || r.exclusive)

/-- Modelled from the spec: the owner description printed in lock-conflict
error messages (identity fields of §3). -/
def describeOwner (r : LockRecord) : String :=
  r.username ++ " on " ++ r.hostname ++ " (pid " ++ toString r.pid ++ ")"

/-- Modelled from the spec: §7 `AlreadyLocked` — the message distinguishes
"locked exclusively" from "locked"; the wording is the one asserted by
`TestLockWaitTimeout` in `cmd/restic/lock_test.go`. -/
def alreadyLockedMessage (r : LockRecord) : String :=
  if r.exclusive then
    "repository is already locked exclusively by " ++ describeOwner r
  else
    "repository is already locked by " ++ describeOwner r

/-- Modelled from the spec: textual containment — `needle` occurs inside
`hay` (the `strings.Contains` checks of the tests). -/
def containsText (needle hay : String) : Prop :=
  ∃ s t, s ++ needle ++ t = hay

/-- Modelled from the spec: §4.4 — the outcome of one acquisition attempt /
of the whole acquisition, together with the elapsed model time at return. -/
inductive AcqResult where
  | acquired (elapsed : Nat)
  | alreadyLocked (other : LockRecord) (elapsed : Nat)
  | cancelled (elapsed : Nat)
deriving DecidableEq, Repr

/-- Modelled from the spec: §6 tunables — the backoff starting sleep (1 s in
milliseconds, §4.4 step 5 "e.g., 1s → 5s cap"). -/
def backoffStart : Nat := 1000

/-- Modelled from the spec: §6 tunables — `backoff_cap`, default 5 s, in
milliseconds. -/
def defaultBackoffCap : Nat := 5000

/-- Modelled from the spec: one acquisition scenario — the fixed local
identity and probes, the other clients' lock records visible in the store as
a function of elapsed time, the instant (if any) at which the caller-supplied
scope is cancelled, the requested mode, and the backoff cap. -/
structure AcqScenario where
  localHostname : String
  pidAlive : Nat → Bool
  knownDead : LockRecord → Bool
  store : Nat → List LockRecord
  cancelAt : Option Nat
  exclusiveMode : Bool
  backoffCap : Nat

/-- Modelled from the spec: the staleness environment an acquisition attempt
at elapsed time `t` evaluates records in. -/
def envAt (sc : AcqScenario) (t : Nat) : Env :=
  { now := t, localHostname := sc.localHostname,
    pidAlive := sc.pidAlive, knownDead := sc.knownDead }

/-- Modelled from the spec: whether the caller-supplied scope is cancelled by
time `t`. -/
def cancelledBy (cancelAt : Option Nat) (t : Nat) : Bool :=
  match cancelAt with
  | some c => decide (c ≤ t)
  | none => false

/-- Modelled from the spec: §4.4 steps 1–4 at elapsed time `t` — scan the
store, discard stale records, and report the first conflicting record
(`none` means the acquirer may place its record and wins the re-scan, there
being no conflicting peer). -/
def attemptAt (sc : AcqScenario) (t : Nat) : Option LockRecord :=
  conflictingLock (envAt sc t) sc.exclusiveMode (sc.store t)

/-- Modelled from the spec: §4.4 step 5 — the last attempt made when the
retry budget elapses: success if no conflict remains, `AlreadyLocked`
otherwise. -/
def finalAttempt (sc : AcqScenario) (t : Nat) : AcqResult :=
  match attemptAt sc t with
  | none => .acquired t
  | some other => .alreadyLocked other t

/-- Modelled from the spec: §4.4 step 5 Retry or give up — the acquisition
loop from elapsed time `t` with `remaining` retry budget and current backoff
sleep `bp + 1` (kept in predecessor form so each sleep is positive).  An
attempt observes cancellation first; on conflict with no budget left it
fails `AlreadyLocked`; otherwise it sleeps `min (bp+1) remaining`, during
which caller cancellation short-circuits the wait, the budget running out
triggers one final attempt, and otherwise the loop repeats with the backoff
doubled up to the cap. -/
def acquireFrom (sc : AcqScenario) (t remaining bp : Nat) : AcqResult :=
  if cancelledBy sc.cancelAt t then .cancelled t
  else
    match attemptAt sc t with
    | none => .acquired t
    | some other =>
      if remaining = 0 then .alreadyLocked other t
      else if cancelledBy sc.cancelAt (t + min (bp + 1) remaining) then
        .cancelled (sc.cancelAt.getD 0)
      else if h : remaining ≤ bp + 1 then
        finalAttempt sc (t + remaining)
      else
        acquireFrom sc (t + (bp + 1)) (remaining - (bp + 1))
          (min (2 * (bp + 1)) sc.backoffCap - 1)
termination_by remaining
decreasing_by omega

/-- Modelled from the spec: §4.4 — acquisition with retry budget `retryFor`,
starting at elapsed time 0 with the starting backoff. -/
def acquire (sc : AcqScenario) (retryFor : Nat) : AcqResult :=
  acquireFrom sc 0 retryFor (backoffStart - 1)

theorem unlock_fst_scopeCancelled (h : Handle) :
    ((unlock h).fst).scopeCancelled = true := by
  unfold unlock Handle.scopeCancelled
  split <;> simp_all

theorem unlock_fst_released (h : Handle) : ((unlock h).fst).released = true := by
  unfold unlock
  split <;> simp_all

/-- C2: for every lock handle, calling `unlock` on it causes the derived
cancellation scope to report cancelled before `unlock` returns: immediately
after `unlock` returns (successfully), the derived scope's cancelled query is
true. -/
theorem unlock_cancels_scope (h : Handle) :
    (unlock h).snd = true ∧ ((unlock h).fst).scopeCancelled = true := by
  refine ⟨?_, unlock_fst_scopeCancelled h⟩
  unfold unlock
  split <;> rfl

/-- C6: for every held lock, cancelling the caller-supplied parent scope
causes the derived cancellation scope to become cancelled, while the release
flag is untouched (no unlock has happened). -/
theorem parent_cancel_cancels_scope (h : Handle) :
    (cancelParent h).scopeCancelled = true ∧ (cancelParent h).released = h.released := by
  constructor
  · unfold cancelParent Handle.scopeCancelled
    simp
  · rfl

/-- C7: when the process holds exactly one lock, `unlock_all 0` returns the
count 1 of released locks, empties the registry, and every released handle's
derived cancellation scope reports cancelled afterwards. -/
theorem unlockAll_single_lock (h : Handle) :
    (unlockAll 0 ⟨[h]⟩).1 = 1 ∧
    (unlockAll 0 ⟨[h]⟩).2.2 = ⟨[]⟩ ∧
    ((unlockAll 0 ⟨[h]⟩).2.1.all (fun x => x.scopeCancelled)) = true := by
  refine ⟨rfl, rfl, ?_⟩
  simp [unlockAll, unlock_fst_scopeCancelled h]

/-- C8: `unlock` is idempotent and never fails fatally: the first call
returns success, and a second call on the released handle — which covers a
handle already released by `unlock_all` and a handle whose Refresh Loop has
lost the lock — returns success and leaves the handle state unchanged. -/
theorem unlock_idempotent (h : Handle) :
    (unlock h).snd = true ∧ unlock (unlock h).fst = ((unlock h).fst, true) := by
  constructor
  · unfold unlock; split <;> rfl
  · by_cases hr : h.released = true <;> simp [unlock, hr]

theorem attemptAt_conflict (sc : AcqScenario) (r : LockRecord)
    (hstore : ∀ u, sc.store u = [r]) (hexcl : r.exclusive = true)
    (hstale : ∀ u, stale (envAt sc u) r = false) (t : Nat) :
    attemptAt sc t = some r := by
  simp [attemptAt, conflictingLock, nonStaleLocks, hstore t, hstale t, hexcl,
    List.find?]

theorem acquireFrom_conflict_elapsed (sc : AcqScenario) (r : LockRecord)
    (hstore : ∀ u, sc.store u = [r]) (hexcl : r.exclusive = true)
    (hstale : ∀ u, stale (envAt sc u) r = false)
    (hcancel : sc.cancelAt = none) :
    ∀ remaining t bp,
      acquireFrom sc t remaining bp = .alreadyLocked r (t + remaining) := by
  intro remaining
  induction remaining using Nat.strong_induction_on with
  | _ remaining ih =>
    intro t bp
    rw [acquireFrom, hcancel]
    simp only [cancelledBy, Bool.false_eq_true, if_false]
    rw [attemptAt_conflict sc r hstore hexcl hstale t]
    by_cases h0 : remaining = 0
    · simp [h0]
    · simp only [h0, if_false]
      by_cases hle : remaining ≤ bp + 1
      · rw [dif_pos hle]
        unfold finalAttempt
        rw [attemptAt_conflict sc r hstore hexcl hstale (t + remaining)]
      · rw [dif_neg hle]
        rw [ih (remaining - (bp + 1)) (by omega) (t + (bp + 1))
          (min (2 * (bp + 1)) sc.backoffCap - 1)]
        congr 1
        omega

/-- C3: when a non-stale exclusive lock of another client is in the store and
a shared acquisition is attempted with retry budget 0, the acquisition fails
immediately (at elapsed time 0) with an `AlreadyLocked` error naming that
lock, and the error message text contains "already locked exclusively". -/
theorem acquire_fastFail_exclusive (sc : AcqScenario) (r : LockRecord)
    (hstore : sc.store 0 = [r]) (hexcl : r.exclusive = true)
    (hstale : stale (envAt sc 0) r = false)
    (hcancel : sc.cancelAt = none) (hmode : sc.exclusiveMode = false) :
    acquire sc 0 = .alreadyLocked r 0 ∧
    containsText "already locked exclusively" (alreadyLockedMessage r) := by
  constructor
  · unfold acquire
    rw [acquireFrom, hcancel]
    simp only [cancelledBy, Bool.false_eq_true, if_false]
    have hattempt : attemptAt sc 0 = some r := by
      simp [attemptAt, conflictingLock, nonStaleLocks, hstore, hstale, hexcl,
        List.find?]
    rw [hattempt]
    simp
  · refine ⟨"repository is ", " by " ++ describeOwner r, ?_⟩
    rw [alreadyLockedMessage, if_pos hexcl]
    rfl

/-- C4: for every retry budget `T > 0`, when a non-stale exclusive lock of
another client is in the store throughout, a shared acquisition with retry
budget `T` returns `AlreadyLocked`, and the elapsed time of the call lies in
the half-open interval `[T, 1.5·T)`. -/
theorem acquire_conflict_wait_elapsed (sc : AcqScenario) (r : LockRecord)
    (T : Nat) (hstore : ∀ u, sc.store u = [r]) (hexcl : r.exclusive = true)
    (hstale : ∀ u, stale (envAt sc u) r = false)
    (hcancel : sc.cancelAt = none) (hmode : sc.exclusiveMode = false)
    (hT : 0 < T) :
    acquire sc T = .alreadyLocked r T ∧ T ≤ T ∧ 2 * T < 3 * T := by
  refine ⟨?_, le_refl T, by omega⟩
  have h := acquireFrom_conflict_elapsed sc r hstore hexcl hstale hcancel T 0
    (backoffStart - 1)
  simpa using h

theorem acquireFrom_cancel_elapsed (sc : AcqScenario) (r : LockRecord)
    (c : Nat) (hstore : ∀ u, sc.store u = [r]) (hexcl : r.exclusive = true)
    (hstale : ∀ u, stale (envAt sc u) r = false)
    (hcancel : sc.cancelAt = some c) :
    ∀ remaining t bp, t < c → c < t + remaining →
      acquireFrom sc t remaining bp = .cancelled c := by
  intro remaining
  induction remaining using Nat.strong_induction_on with
  | _ remaining ih =>
    intro t bp htc hct
    rw [acquireFrom, hcancel]
    have h1 : cancelledBy (some c) t = false := by
      simp only [cancelledBy, decide_eq_false_iff_not]
      omega
    rw [h1]
    simp only [Bool.false_eq_true, if_false]
    rw [attemptAt_conflict sc r hstore hexcl hstale t]
    have h0 : ¬ remaining = 0 := by omega
    simp only [h0, if_false]
    by_cases h2 : c ≤ t + min (bp + 1) remaining
    · have hcb : cancelledBy (some c) (t + min (bp + 1) remaining) = true := by
        simp [cancelledBy, h2]
      rw [hcb]
      simp
    · have hcb : cancelledBy (some c) (t + min (bp + 1) remaining) = false := by
        simp only [cancelledBy, decide_eq_false_iff_not]
        omega
      rw [hcb]
      simp only [Bool.false_eq_true, if_false]
      have hgt : ¬ remaining ≤ bp + 1 := by omega
      rw [dif_neg hgt]
      exact ih (remaining - (bp + 1)) (by omega) (t + (bp + 1))
        (min (2 * (bp + 1)) sc.backoffCap - 1) (by omega) (by omega)

/-- C5: for every retry budget `T` and cancellation instant `c` with
`0 < c < T`, when a non-stale exclusive lock of another client is in the
store throughout and the caller-supplied scope is cancelled at `c`, a shared
acquisition with budget `T` returns `Cancelled`, and its elapsed time lies in
`[c, T)`: cancellation short-circuits the backoff wait. -/
theorem acquire_wait_cancel (sc : AcqScenario) (r : LockRecord) (T c : Nat)
    (hstore : ∀ u, sc.store u = [r]) (hexcl : r.exclusive = true)
    (hstale : ∀ u, stale (envAt sc u) r = false)
    (hcancel : sc.cancelAt = some c) (hmode : sc.exclusiveMode = false)
    (hc : 0 < c) (hcT : c < T) :
    acquire sc T = .cancelled c ∧ c ≤ c ∧ c < T := by
  refine ⟨?_, le_refl c, hcT⟩
  exact acquireFrom_cancel_elapsed sc r c hstore hexcl hstale hcancel T 0
    (backoffStart - 1) hc (by omega)

/-- Modelled from the spec: a concrete foreign exclusive lock record used to
instantiate the conflict scenarios. -/
def conflictRecord : LockRecord :=
  { time := 0, exclusive := true, hostname := "hostB", username := "bob",
    uid := 0, gid := 0, pid := 7 }

/-- Modelled from the spec: a concrete scenario — another client on a
different host holds a fresh exclusive lock throughout, no cancellation,
shared mode requested. -/
def conflictScenario : AcqScenario :=
  { localHostname := "hostA", pidAlive := fun _ => true,
    knownDead := fun _ => false, store := fun _ => [conflictRecord],
    cancelAt := none, exclusiveMode := false, backoffCap := defaultBackoffCap }

/-- Modelled from the spec: the conflict scenario with the caller-supplied
scope cancelled at 40 ms (the instant used by `TestLockWaitCancel`). -/
def cancelScenario : AcqScenario :=
  { conflictScenario with cancelAt := some 40 }

theorem conflictRecord_never_stale (sc : AcqScenario)
    (hhost : sc.localHostname = "hostA")
    (hdead : sc.knownDead = fun _ => false) :
    ∀ u, stale (envAt sc u) conflictRecord = false := by
  intro u
  simp [stale, envAt, conflictRecord, hhost, hdead]

theorem acquire_fastFail_exclusive_witness :
    acquire conflictScenario 0 = .alreadyLocked conflictRecord 0 ∧
    containsText "already locked exclusively"
      (alreadyLockedMessage conflictRecord) :=
  acquire_fastFail_exclusive conflictScenario conflictRecord rfl rfl
    (conflictRecord_never_stale conflictScenario rfl rfl 0) rfl rfl

theorem acquire_conflict_wait_elapsed_witness :
    acquire conflictScenario 200 = .alreadyLocked conflictRecord 200 ∧
    200 ≤ 200 ∧ 2 * 200 < 3 * 200 :=
  acquire_conflict_wait_elapsed conflictScenario conflictRecord 200
    (fun _ => rfl) rfl (conflictRecord_never_stale conflictScenario rfl rfl)
    rfl rfl (by decide)

theorem acquire_wait_cancel_witness :
    acquire cancelScenario 200 = .cancelled 40 ∧ 40 ≤ 40 ∧ 40 < 200 :=
  acquire_wait_cancel cancelScenario conflictRecord 200 40 (fun _ => rfl) rfl
    (conflictRecord_never_stale cancelScenario rfl rfl) rfl rfl (by decide)
    (by decide)

/-- Modelled from the spec: §4.5 Refresh Loop states Healthy, Retrying,
Lost, Released. -/
inductive RefreshState where
  | healthy
  | retrying
  | lost
  | released
deriving DecidableEq, Repr

/-- Modelled from the spec: §4.5 — the per-lock refresh task: its state, the
wall-clock instant of the last successful refresh (acquisition counts as the
first success, at time 0), and how many refresh writes it has issued. -/
structure RefreshLoop where
  state : RefreshState
  lastSuccess : Nat
  writesIssued : Nat
deriving DecidableEq, Repr

/-- Modelled from the spec: the refresh task right after acquisition at
time 0: Healthy, last success at 0, no refresh writes yet. -/
def startRefresh : RefreshLoop :=
  { state := .healthy, lastSuccess := 0, writesIssued := 0 }

/-- Modelled from the spec: §4.5 — one timer firing at wall-clock `t`.  In
Lost or Released no refresh write is attempted and nothing changes.  In
Healthy or Retrying a refresh write is issued: on success the task is
Healthy with `lastSuccess := t`; on failure it enters Lost if
`t - lastSuccess` exceeds `timeout` (the refreshability timeout), else
Retrying. -/
def refreshTick (timeout : Nat) (writeOk : Nat → Bool) (t : Nat)
    (s : RefreshLoop) : RefreshLoop :=
  match s.state with
  | .lost => s
  | .released => s
  | _ =>
    if writeOk t then
      { state := .healthy, lastSuccess := t, writesIssued := s.writesIssued + 1 }
    else if timeout < t - s.lastSuccess then
      { state := .lost, lastSuccess := s.lastSuccess,
        writesIssued := s.writesIssued + 1 }
    else
      { state := .retrying, lastSuccess := s.lastSuccess,
        writesIssued := s.writesIssued + 1 }

/-- Modelled from the spec: the refresh task after the first `k` timer
firings, the timer firing at every multiple of `interval` after the
acquisition at time 0. -/
def runRefresh (interval timeout : Nat) (writeOk : Nat → Bool) :
    Nat → RefreshLoop
  | 0 => startRefresh
  | k + 1 =>
    refreshTick timeout writeOk ((k + 1) * interval)
      (runRefresh interval timeout writeOk k)

/-- Modelled from the spec: a backend that rejects every write issued after
acquisition (the `writeOnceBackend` of `TestLockFailedRefresh`). -/
def rejectAllWrites : Nat → Bool := fun _ => false

/-- Modelled from the spec: §4.6 — the derived scope's cancelled query as
driven by the refresh task: cancelled once the task is Lost or Released. -/
def refreshScopeCancelled (s : RefreshLoop) : Bool :=
  s.state == .lost || s.state == .released

theorem refreshTick_reject_live (timeout t : Nat) (s : RefreshLoop)
    (hst : s.state = .healthy ∨ s.state = .retrying)
    (hls : s.lastSuccess = 0) (hle : t ≤ timeout) :
    refreshTick timeout rejectAllWrites t s =
      { state := .retrying, lastSuccess := 0,
        writesIssued := s.writesIssued + 1 } := by
  rcases hst with h | h <;>
    simp [refreshTick, rejectAllWrites, h, hls, Nat.not_lt.mpr hle]

theorem refreshTick_reject_lost_entry (timeout t : Nat) (s : RefreshLoop)
    (hst : s.state = .healthy ∨ s.state = .retrying)
    (hls : s.lastSuccess = 0) (hgt : timeout < t) :
    refreshTick timeout rejectAllWrites t s =
      { state := .lost, lastSuccess := 0,
        writesIssued := s.writesIssued + 1 } := by
  rcases hst with h | h <;> simp [refreshTick, rejectAllWrites, h, hls, hgt]

theorem runRefresh_rejected_before_timeout (interval timeout : Nat) :
    ∀ j, j * interval ≤ timeout →
      (runRefresh interval timeout rejectAllWrites j).lastSuccess = 0 ∧
      (runRefresh interval timeout rejectAllWrites j).writesIssued = j ∧
      ((runRefresh interval timeout rejectAllWrites j).state = .healthy ∨
        (runRefresh interval timeout rejectAllWrites j).state = .retrying) := by
  intro j
  induction j with
  | zero => exact fun _ => ⟨rfl, rfl, Or.inl rfl⟩
  | succ k ihk =>
    intro hle
    obtain ⟨hls, hw, hst⟩ :=
      ihk (le_trans (Nat.mul_le_mul_right interval (Nat.le_succ k)) hle)
    rw [runRefresh,
      refreshTick_reject_live timeout ((k + 1) * interval) _ hst hls hle]
    exact ⟨rfl, by rw [hw], Or.inr rfl⟩

/-- C1: if the backend rejects every write after acquisition, the refresh
task enters Lost — cancelling the derived scope — at the first timer firing
past the refreshability timeout, a wall-clock instant that is at most
`timeout + interval` after the acquisition; and a task that is Lost is left
unchanged by every further timer firing, so it issues no further refresh
writes. -/
theorem refresh_failure_cancels (interval timeout : Nat) (hpos : 0 < interval) :
    refreshScopeCancelled
      (runRefresh interval timeout rejectAllWrites (timeout / interval + 1)) =
        true ∧
    (timeout / interval + 1) * interval ≤ timeout + interval ∧
    (∀ t s, s.state = RefreshState.lost →
      refreshTick timeout rejectAllWrites t s = s) := by
  refine ⟨?_, ?_, ?_⟩
  · have hq : (timeout / interval) * interval ≤ timeout :=
      Nat.div_mul_le_self timeout interval
    have hlt : timeout < (timeout / interval + 1) * interval := by
      obtain ⟨hr, hsum⟩ :
          timeout % interval < interval ∧
            interval * (timeout / interval) + timeout % interval = timeout :=
        ⟨Nat.mod_lt timeout hpos, Nat.div_add_mod timeout interval⟩
      have hexp : (timeout / interval + 1) * interval =
          interval * (timeout / interval) + interval := by ring
      rw [hexp]
      calc timeout = interval * (timeout / interval) + timeout % interval :=
            hsum.symm
        _ < interval * (timeout / interval) + interval :=
            Nat.add_lt_add_left hr _
    obtain ⟨hls, hw, hst⟩ :=
      runRefresh_rejected_before_timeout interval timeout (timeout / interval) hq
    rw [runRefresh,
      refreshTick_reject_lost_entry timeout ((timeout / interval + 1) * interval)
        _ hst hls hlt]
    rfl
  · have hq : (timeout / interval) * interval ≤ timeout :=
      Nat.div_mul_le_self timeout interval
    calc (timeout / interval + 1) * interval
        = (timeout / interval) * interval + interval := by ring
      _ ≤ timeout + interval := Nat.add_le_add_right hq interval
  · intro t s hs
    unfold refreshTick
    rw [hs]

theorem refresh_failure_cancels_witness :
    refreshScopeCancelled (runRefresh 20 100 rejectAllWrites 6) = true ∧
    6 * 20 ≤ 100 + 20 ∧
    refreshTick 100 rejectAllWrites 140
        ⟨RefreshState.lost, 0, 3⟩ = ⟨RefreshState.lost, 0, 3⟩ := by
  have h := refresh_failure_cancels 20 100 (by decide)
  exact ⟨h.1, h.2.1, h.2.2 140 ⟨RefreshState.lost, 0, 3⟩ rfl⟩

/-- Modelled from the spec: §4.4 step 3 — the fresh record an acquisition
places: creation timestamp now, the acquirer's mode, local hostname and
identity. -/
def freshRecord (env : Env) (excl : Bool) (username : String)
    (uid gid pid : Nat) : LockRecord :=
  { time := env.now, exclusive := excl, hostname := env.localHostname,
    username := username, uid := uid, gid := gid, pid := pid }

/-- Modelled from the spec: §4.4 step 6 Bind — the handle returned on
success: derived scope not yet cancelled, not released, refresh loop not
lost. -/
def bindHandle (r : LockRecord) : Handle :=
  { record := r, parentCancelled := false, released := false, lost := false }

/-- C9: immediately after a successful acquisition by a live local process
(one whose pid the local liveness probe reports alive), the placed record is
not stale under the Staleness Oracle — its timestamp is the current instant
and its hostname is the local hostname — and the derived scope of the
returned handle is not yet cancelled. -/
theorem fresh_lock_not_stale (env : Env) (excl : Bool) (username : String)
    (uid gid pid : Nat) (halive : env.pidAlive pid = true) :
    stale env (freshRecord env excl username uid gid pid) = false ∧
    (bindHandle (freshRecord env excl username uid gid pid)).scopeCancelled =
      false ∧
    (freshRecord env excl username uid gid pid).time = env.now ∧
    (freshRecord env excl username uid gid pid).hostname = env.localHostname := by
  refine ⟨?_, rfl, rfl, rfl⟩
  have hage : ¬ (env.now + staleAge < env.now) := by omega
  simp [stale, freshRecord, halive, hage]

/-- Modelled from the spec: a concrete environment for the fresh-lock
witness: a live local process with pid 42. -/
def localEnv : Env :=
  { now := 0, localHostname := "hostA", pidAlive := fun _ => true,
    knownDead := fun _ => false }

theorem fresh_lock_not_stale_witness :
    stale localEnv (freshRecord localEnv false "alice" 0 0 42) = false ∧
    (bindHandle (freshRecord localEnv false "alice" 0 0 42)).scopeCancelled =
      false ∧
    (freshRecord localEnv false "alice" 0 0 42).time = localEnv.now ∧
    (freshRecord localEnv false "alice" 0 0 42).hostname =
      localEnv.localHostname :=
  fresh_lock_not_stale localEnv false "alice" 0 0 42 rfl

/-- Embedding of `Node` from `internal/restic/testing.go`'s `saveTree`: a
tree node is either a directory entry (Type "dir", Mode 0755, Subtree id of
type `α`) or a file entry (Type "file", Mode 0644, Size).  The file content
blob list is produced by the external chunker collaborator and is not part
of the tree shape. -/
inductive Node (α : Type) where
  | dir (name : String) (mode : Nat) (subtree : α)
  | file (name : String) (mode : Nat) (size : Nat)
deriving DecidableEq, Repr

/-- Embedding of `Tree` from `internal/restic/testing.go`: the list of nodes
accumulated by `saveTree`'s loop, in order. -/
structure Tree (α : Type) where
  nodes : List (Node α)
deriving DecidableEq, Repr

/-- Embedding of the constant `maxFileSize` of `internal/restic/testing.go`. -/
def maxFileSize : Nat := 20000

/-- Embedding of the constant `maxSeed` of `internal/restic/testing.go`. -/
def maxSeed : Nat := 32

/-- Embedding of the constant `maxNodes` of `internal/restic/testing.go`. -/
def maxNodes : Nat := 15

/-- Embedding of the file-node construction in `saveTree`: name
`file-<fileSeed>`, mode 0644, size `(maxFileSize / maxSeed) * fileSeed`. -/
def fileNode (α : Type) (fileSeed : Nat) : Node α :=
  .file ("file-" ++ toString fileSeed) 0o644 ((maxFileSize / maxSeed) * fileSeed)

/-- Embedding of the directory-node construction in `saveTree`: name
`dir-<treeSeed>`, mode 0755, subtree id from the recursive call. -/
def dirNode (α : Type) (treeSeed : Nat) (sub : α) : Node α :=
  .dir ("dir-" ++ toString treeSeed) 0o755 sub

/-- Embedding of `saveTree`'s node loop for `depth ≤ 1`: the branch test
`depth > 1 && rnd.Int63()%4 == 0` short-circuits without drawing, so each of
the `n` iterations draws exactly one value (index `k` onward) and emits a
file node with `fileSeed := draw k % maxSeed`. -/
def shallowNodes (α : Type) (draw : Nat → Nat) : Nat → Nat → List (Node α)
  | 0, _ => []
  | n + 1, k =>
    fileNode α (draw k % maxSeed) :: shallowNodes α draw n (k + 1)

/-- Embedding of `saveTree`'s node loop for `depth > 1`: each iteration
draws the branch test `draw k % 4 == 0`; a directory node then draws
`treeSeed := draw (k+1) % maxSeed` and recurses via `recur`, a file node
draws `fileSeed := draw (k+1) % maxSeed`; either way two draws are
consumed. -/
def deepNodes (α : Type) (draw : Nat → Nat) (recur : Nat → α) :
    Nat → Nat → List (Node α)
  | 0, _ => []
  | n + 1, k =>
    if draw k % 4 == 0 then
      dirNode α (draw (k + 1) % maxSeed) (recur (draw (k + 1) % maxSeed)) ::
        deepNodes α draw recur n (k + 2)
    else
      fileNode α (draw (k + 1) % maxSeed) :: deepNodes α draw recur n (k + 2)

/-- Embedding of `saveTree` from `internal/restic/testing.go`.  `int63 seed`
models the draw sequence of `rand.NewSource(seed)` (`Int63` values are
non-negative, hence `Nat`); draw 0 gives `numNodes := draw 0 % maxNodes`,
and the loop starts at draw index 1.  `hash` abstracts the repository's
content hash of the marshalled tree (`Hash(json(tree))`): the returned id is
`hash` of the built tree whether or not the blob was already known.  The
directory branch is taken only when `depth > 1`, and every recursive call
uses `depth - 1` on a source freshly seeded with `treeSeed`. -/
def saveTree (α : Type) (hash : Tree α → α) (int63 : Int → Nat → Nat) :
    Nat → Int → α
  | 0, seed =>
    hash ⟨shallowNodes α (int63 seed) (int63 seed 0 % maxNodes) 1⟩
  | 1, seed =>
    hash ⟨shallowNodes α (int63 seed) (int63 seed 0 % maxNodes) 1⟩
  | d + 2, seed =>
    hash ⟨deepNodes α (int63 seed)
      (fun treeSeed => saveTree α hash int63 (d + 1) (Int.ofNat treeSeed))
      (int63 seed 0 % maxNodes) 1⟩

/-- Height of a node when tree ids are instantiated to heights: a directory
entry contributes its subtree's height, a file contributes 0. -/
def nodeHeight : Node Nat → Nat
  | .dir _ _ s => s
  | .file _ _ _ => 0

/-- Instantiation of the abstract content hash that computes the height of
the generated tree: one plus the maximum height among the subtree ids. -/
def heightHash (t : Tree Nat) : Nat :=
  (t.nodes.map nodeHeight).foldr max 0 + 1

theorem foldr_max_le (B : Nat) :
    ∀ l : List Nat, (∀ x ∈ l, x ≤ B) → l.foldr max 0 ≤ B := by
  intro l
  induction l with
  | nil => intro _; exact Nat.zero_le B
  | cons a l ihl =>
    intro hmem
    simp only [List.foldr_cons]
    exact Nat.max_le.mpr
      ⟨hmem a (List.mem_cons_self a l), ihl fun x hx => hmem x (List.mem_cons_of_mem a hx)⟩

theorem shallowNodes_height (draw : Nat → Nat) :
    ∀ n k, ((shallowNodes Nat draw n k).map nodeHeight).foldr max 0 = 0 := by
  intro n
  induction n with
  | zero => intro k; rfl
  | succ m ihm =>
    intro k
    simp [shallowNodes, fileNode, nodeHeight, ihm (k + 1)]

theorem deepNodes_height (draw : Nat → Nat) (recur : Nat → Nat) (B : Nat)
    (hrec : ∀ ts, recur ts ≤ B) :
    ∀ n k, ((deepNodes Nat draw recur n k).map nodeHeight).foldr max 0 ≤ B := by
  intro n
  induction n with
  | zero => intro k; exact Nat.zero_le B
  | succ m ihm =>
    intro k
    by_cases hb : draw k % 4 == 0
    · simp only [deepNodes, hb, if_true, List.map_cons, List.foldr_cons,
        dirNode, nodeHeight]
      exact Nat.max_le.mpr ⟨hrec _, ihm (k + 2)⟩
    · simp only [deepNodes, hb, if_false, List.map_cons, List.foldr_cons,
        fileNode, nodeHeight, Bool.false_eq_true]
      exact Nat.max_le.mpr ⟨Nat.zero_le B, ihm (k + 2)⟩

/-- C10: the fake-tree generator terminates with a bounded recursion: it
recurses only when `depth > 1` and always at `depth - 1`, so `saveTree` is a
total function of `seed` and `depth` — witnessed by instantiating the
abstract id type with tree heights: the nesting height of the generated tree
is at most `max depth 1` for every draw sequence, seed and depth. -/
theorem saveTree_height_bounded (int63 : Int → Nat → Nat) :
    ∀ depth seed, saveTree Nat heightHash int63 depth seed ≤ max depth 1 := by
  intro depth
  induction depth using Nat.strong_induction_on with
  | _ depth ih =>
    intro seed
    match depth, ih with
    | 0, _ =>
      simp [saveTree, heightHash, shallowNodes_height]
    | 1, _ =>
      simp [saveTree, heightHash, shallowNodes_height]
    | d + 2, ih =>
      have hrec : ∀ ts : Nat,
          saveTree Nat heightHash int63 (d + 1) (Int.ofNat ts) ≤ d + 1 := by
        intro ts
        have h := ih (d + 1) (by omega) (Int.ofNat ts)
        have hmax : max (d + 1) 1 = d + 1 := Nat.max_eq_left (by omega)
        rw [hmax] at h
        exact h
      have hfold := deepNodes_height (int63 seed) _ (d + 1) hrec
        (int63 seed 0 % maxNodes) 1
      have hmax2 : max (d + 2) 1 = d + 2 := Nat.max_eq_left (by omega)
      rw [hmax2]
      simp only [saveTree, heightHash]
      omega

end Restic
